import Mathlib

/-!
Shallow embedding of the issue-aggregation core of the repository
(file issues.go): the record type, the deduplication pass, the language
fetcher with its memoizing cache, the search worker loop and the
fan-in loop of the aggregator, together with theorems checking the
specification against these definitions.

Conventions: Go machine state is passed explicitly; a Go error value is
an Option String with none standing for the nil error; a Go slice is an
Option (List α) with none standing for the nil slice; Go maps are
association lists or functions with the zero value as default; the
outcome of every outbound HTTP request is supplied by a world function,
and each definition also reports the list of request URLs it actually
executed, so that claims about outbound traffic are statable.
-/

/-- A Go error value: none is the nil error, some msg a non-nil error. -/
abbrev GoErr := Option String

/-- Model of errors.Wrap from github.com/pkg/errors: wrapping a nil error
yields the nil error (this is documented behaviour of that package);
wrapping a non-nil error prepends the message. -/
def errorsWrap (err : GoErr) (msg : String) : GoErr :=
  match err with
  | none => none
  | some e => some (msg ++ ": " ++ e)

/-- Model of errors.Wrapf from github.com/pkg/errors: same nil-in nil-out
behaviour as errorsWrap, with a formatted message. -/
def errorsWrapf (err : GoErr) (msg : String) : GoErr :=
  errorsWrap err msg

/-- A Go slice: none models the nil slice, some l a non-nil slice holding
the elements l. Ranging over a nil slice iterates zero times. -/
abbrev GoSlice (α : Type) := Option (List α)

/-- The elements of a Go slice (a nil slice has none). -/
def GoSlice.elems {α : Type} (s : GoSlice α) : List α := s.getD []

/-- Go append: appending to a nil slice allocates, so the result is always
a non-nil slice. -/
def GoSlice.push {α : Type} (s : GoSlice α) (a : α) : GoSlice α :=
  some (s.elems ++ [a])

/-- Repo identifies a hosting project by owner and name (built by the
repoFromURL helper that lives outside issues.go). -/
structure Repo where
  Owner : String
  Name : String
deriving DecidableEq

/-- Issue is a requested change against one of the tracked repos
(issues.go lines 16-23). The time.Time field Date is modelled as an
integer timestamp. -/
structure Issue where
  Title : String
  Date : Int
  URL : String
  Repo : Repo
  Languages : List String
deriving DecidableEq

/-- One step of the loop body of dedupe (issues.go lines 107-112): the
state is the pair of the accumulated uniq slice and the Go map seen,
modelled as a function with the zero value 0 for absent keys. -/
def dedupeStep (st : List Issue × (String → Nat)) (i : Issue) :
    List Issue × (String → Nat) :=
  (if st.2 i.URL = 0 then st.1 ++ [i] else st.1,
   fun u => if u = i.URL then st.2 u + 1 else st.2 u)

/-- dedupe returns only the unique values from the issues provided, using
the URL field for identity (issues.go lines 104-114). The uniq slice is
initialised to a non-nil empty slice literal, so the result is never the
nil slice. -/
def dedupe (inp : GoSlice Issue) : GoSlice Issue :=
  some ((inp.elems.foldl dedupeStep ([], fun _ => 0)).1)

/-- Reference form of the dedupe loop used in proofs: keep an element iff
its URL is not in the set of URLs already seen. -/
def dedupeFrom (seen : List String) : List Issue → List Issue
  | [] => []
  | i :: rest =>
    if i.URL ∈ seen then dedupeFrom seen rest
    else i :: dedupeFrom (i.URL :: seen) rest

/-- Insertion of an integer into a descending-sorted list of integers. -/
def insertDesc (x : Int) : List Int → List Int
  | [] => [x]
  | y :: ys => if x ≥ y then x :: y :: ys else y :: insertDesc x ys

/-- Descending sort of a list of integers, modelling the call
sort.Sort(sort.Reverse(sort.IntSlice(keys))) at issues.go line 257
(int values that compare equal are indistinguishable, so any descending
sort is a faithful model). -/
def sortDesc : List Int → List Int
  | [] => []
  | x :: xs => insertDesc x (sortDesc xs)

/-- Go map access sortMap[v] after the loop at issues.go lines 253-256,
which runs sortMap[v] = k for every pair (k, v) of the decoded data in
iteration order: the value stored is the last name in iteration order
whose weight is v, and the zero value is the empty string. -/
def sortMapGet (data : List (String × Int)) (v : Int) : String :=
  ((data.reverse.find? (fun p => p.2 == v)).map Prod.fst).getD ""

/-- The ranking step of repoLanguages (issues.go lines 249-265): collect
the weights in iteration order, sort them descending, then take the names
stored in sortMap for the first three weights. The decoded JSON object is
modelled as its iteration sequence: a list of (name, weight) pairs with
pairwise distinct names. -/
def rankLanguages (data : List (String × Int)) : List String :=
  let keys := data.map Prod.snd
  ((sortDesc keys).take 3).map (fun k => sortMapGet data k)

/-- Insertion of a (name, weight) pair into a list sorted by descending
weight; reference function for stating what a correct ranking is. -/
def insertPairDesc (x : String × Int) :
    List (String × Int) → List (String × Int)
  | [] => [x]
  | y :: ys => if x.2 ≥ y.2 then x :: y :: ys else y :: insertPairDesc x ys

/-- The (name, weight) pairs sorted by descending weight; reference
function for stating what a correct ranking is. -/
def sortPairsDesc : List (String × Int) → List (String × Int)
  | [] => []
  | x :: xs => insertPairDesc x (sortPairsDesc xs)

/-- The outcome of executing one HTTP request, as the Go code observes it:
request construction failed (http.NewRequest returned a non-nil error),
the call could not be executed (http.DefaultClient.Do returned a non-nil
error), or a response arrived with a status code and a body whose JSON
decoding yields a value of type β or a decode error. -/
inductive ReqOutcome (β : Type) where
  | buildErr (msg : String)
  | transportErr (msg : String)
  | resp (statusCode : Int) (decoded : Except String β)

/-- languageFetcher holds the per-fetcher cache from repo URL to its
ranked language list (issues.go lines 205-207); the Go map is modelled as
an association list where the most recent insertion comes first. -/
structure languageFetcher where
  fetchedRepos : List (String × List String)
deriving DecidableEq

/-- newLanguageFetcher returns a fetcher with an empty cache
(issues.go lines 209-213). -/
def newLanguageFetcher : languageFetcher := { fetchedRepos := [] }

/-- Go map access lf.fetchedRepos[repoURL]: the stored list, or the zero
value nil slice (modelled as the empty list) when the key is absent. -/
def cacheGet (m : List (String × List String)) (k : String) : List String :=
  ((m.find? (fun p => p.1 == k)).map Prod.snd).getD []

/-- The result of one repoLanguages call: the returned language list and
error, the fetcher state after the call, and the URLs of the outbound
requests the call actually executed. -/
structure LangResult where
  langs : List String
  err : GoErr
  lf : languageFetcher
  reqs : List String
deriving DecidableEq

/-- repoLanguages (issues.go lines 215-270). Returns the cached list when
the cached entry is non-empty; otherwise builds and executes a GET on
repoURL ++ "/languages", checks the status, decodes the weight map, ranks
it, caches the ranked list and returns it. On the non-200 path the code
runs errors.Wrapf(err, ...) where err is the nil error left over from the
successful Do call, so the returned error is the nil error. -/
def repoLanguages (lf : languageFetcher)
    (world : String → ReqOutcome (List (String × Int)))
    (repoURL token : String) : LangResult :=
  if (cacheGet lf.fetchedRepos repoURL).length > 0 then
    { langs := cacheGet lf.fetchedRepos repoURL, err := none, lf := lf, reqs := [] }
  else
    let reqURL := repoURL ++ "/languages"
    match world reqURL with
    | .buildErr m =>
      { langs := [], err := errorsWrap (some m) "could not build request",
        lf := lf, reqs := [] }
    | .transportErr m =>
      { langs := [], err := errorsWrap (some m) "could not execute request",
        lf := lf, reqs := [reqURL] }
    | .resp status decoded =>
      if status ≠ 200 then
        { langs := [],
          err := errorsWrapf none ("status was " ++ toString status ++ ", not 200"),
          lf := lf, reqs := [reqURL] }
      else
        match decoded with
        | .error m =>
          { langs := [], err := errorsWrap (some m) "could not decode json",
            lf := lf, reqs := [reqURL] }
        | .ok data =>
          { langs := rankLanguages data, err := none,
            lf := { fetchedRepos := (repoURL, rankLanguages data) :: lf.fetchedRepos },
            reqs := [reqURL] }

/-- Modelled from the spec: repoFromURL is defined outside the provided
source files. Per the spec a Resource Reference is minimally an owner/name
pair derived by parsing a resource API URL, and construction fails if the
URL does not match the expected shape. We model it as taking the final two
non-empty slash-separated segments of the URL as owner and name, failing
when fewer than two such segments exist. -/
def splitSlashAux : List Char → List Char → List String
  | acc, [] => [String.mk acc.reverse]
  | acc, c :: rest =>
    if c = '/' then String.mk acc.reverse :: splitSlashAux [] rest
    else splitSlashAux (c :: acc) rest

/-- Modelled from the spec: see splitSlashAux. Returns the owner/name pair
and a nil error, or a zero Repo and a non-nil parse error. -/
def repoFromURL (u : String) : Repo × GoErr :=
  match ((splitSlashAux [] u.toList).filter (fun s => s != "")).reverse with
  | name :: owner :: _ => ({ Owner := owner, Name := name }, none)
  | _ => ({ Owner := "", Name := "" }, some ("malformed repo url: " ++ u))

/-- A search item as decoded from the search response body
(issues.go lines 161-168). -/
structure SearchItem where
  Title : String
  CreatedAt : Int
  URL : String
  RepoURL : String
deriving DecidableEq

/-- The environment one issueSearch worker runs in: the outcome of its
single search request, the outcomes of language requests by URL, and
whether the select at issues.go lines 192-200 observes the shared context
as cancelled at the k-th send attempt. -/
structure SearchWorld where
  searchOutcome : ReqOutcome (List SearchItem)
  langWorld : String → ReqOutcome (List (String × Int))
  cancelledAtSend : Nat → Bool

/-- What one issueSearch call produced: its returned error, the issues it
sent on the channel in order, and the outbound language-request URLs it
executed. -/
structure WorkerResult where
  err : GoErr
  sent : List Issue
  reqs : List String
deriving DecidableEq

/-- The per-item loop of issueSearch (issues.go lines 173-201). A fresh
languageFetcher is created for every item, exactly as the code does at
line 174 (so its cache never survives from one item to the next). On a
non-nil language error the loop returns it; then the Repo is derived, the
Issue assembled, and the select either observes cancellation and returns
the nil error, or sends the issue and continues. -/
def searchLoop (w : SearchWorld) (token : String) :
    Nat → List SearchItem → WorkerResult
  | _, [] => { err := none, sent := [], reqs := [] }
  | k, item :: rest =>
    let r := repoLanguages newLanguageFetcher w.langWorld item.RepoURL token
    match r.err with
    | some e => { err := some e, sent := [], reqs := r.reqs }
    | none =>
      match (repoFromURL item.RepoURL).2 with
      | some e =>
        { err := errorsWrapf (some e)
            ("could not identify repo from " ++ item.RepoURL),
          sent := [], reqs := r.reqs }
      | none =>
        if w.cancelledAtSend k then
          { err := none, sent := [], reqs := r.reqs }
        else
          let issue : Issue :=
            { Title := item.Title, Date := item.CreatedAt, URL := item.URL,
              Repo := (repoFromURL item.RepoURL).1, Languages := r.langs }
          let tailR := searchLoop w token (k + 1) rest
          { err := tailR.err, sent := issue :: tailR.sent,
            reqs := r.reqs ++ tailR.reqs }

/-- issueSearch (issues.go lines 120-203): one worker. The search request
itself is modelled by its outcome in the world; on a non-200 status the
code runs errors.Wrapf(err, ...) where err is the nil error left by the
successful Do call, so the returned error is the nil error. On a 200 the
decoded items are processed by searchLoop. -/
def issueSearch (w : SearchWorld) (token : String) : WorkerResult :=
  match w.searchOutcome with
  | .buildErr m =>
    { err := errorsWrap (some m) "could not build request", sent := [], reqs := [] }
  | .transportErr m =>
    { err := errorsWrap (some m) "could not execute request", sent := [], reqs := [] }
  | .resp status decoded =>
    if status ≠ 200 then
      { err := errorsWrapf none ("status was " ++ toString status ++ ", not 200"),
        sent := [], reqs := [] }
    else
      match decoded with
      | .error m =>
        { err := errorsWrap (some m) "could not decode json", sent := [], reqs := [] }
      | .ok items => searchLoop w token 0 items

/-- One event the select statement of the fan-in loop observes: a value
received on the error channel, an issue received on the result channel,
or the result channel found closed. -/
inductive FanEvent where
  | errEvent (e : String)
  | recEvent (i : Issue)
  | closeEvent
deriving DecidableEq

/-- The value fetchIssues returns, together with whether the child context
has been cancelled by the time it returns (the deferred cancel at
issues.go line 63 fires on every return, and the error path additionally
cancels explicitly at line 88 before returning). -/
structure FanResult where
  records : GoSlice Issue
  err : GoErr
  cancelled : Bool
deriving DecidableEq

/-- The fan-in select loop of fetchIssues (issues.go lines 82-99), driven
by the trace of channel events it observes. Receiving an error cancels
and returns the nil slice with that error; observing the closed result
channel returns the deduplicated accumulated issues with the nil error;
receiving an issue appends it and continues. An exhausted trace (none)
models a loop that is still blocked. -/
def fetchIssuesLoop (acc : GoSlice Issue) : List FanEvent → Option FanResult
  | [] => none
  | FanEvent.errEvent e :: _ =>
    some { records := none, err := some e, cancelled := true }
  | FanEvent.closeEvent :: _ =>
    some { records := dedupe acc, err := none, cancelled := true }
  | FanEvent.recEvent i :: rest => fetchIssuesLoop (acc.push i) rest

/-- fetchIssues starts from the nil slice declared by var issues []Issue
(issues.go line 82) and runs the fan-in loop over the observed events. -/
def fetchIssuesResult (trace : List FanEvent) : Option FanResult :=
  fetchIssuesLoop none trace

/-- The composed q parameter of the search request
(issues.go lines 131-137): the open-state and issue-type filters, the
quoted label, then one org: term per tracked organization and one repo:
term per tracked project, in map iteration order. The tracked sets live
in configuration code outside issues.go and are taken as parameters. -/
def buildSearchQuery (orgs projects : List String) (label : String) : String :=
  let q0 := "is:open type:issue label:\"" ++ label ++ "\""
  let q1 := orgs.foldl (fun q k => q ++ " org:" ++ k) q0
  projects.foldl (fun q k => q ++ " repo:" ++ k) q1

/-- The parts of the built search request that the spec speaks about:
method, base URL, query parameters and headers. -/
structure GoRequest where
  method : String
  baseURL : String
  query : List (String × String)
  headers : List (String × String)
deriving DecidableEq

/-- The search request as issueSearch builds it (issues.go lines 123-149):
GET on the search endpoint with the q, sort, order and per_page query
parameters, and the Authorization header exactly when the token is
non-empty. -/
def buildSearchRequest (orgs projects : List String) (label token : String) :
    GoRequest :=
  { method := "GET"
    baseURL := "https://api.github.com/search/issues"
    query := [("q", buildSearchQuery orgs projects label), ("sort", "updated"),
              ("order", "asc"), ("per_page", "100")]
    headers := if token ≠ "" then [("Authorization", "token " ++ token)] else [] }

/-- Concatenation of a list of strings; reference function for stating the
shape of the composed query. -/
def joinAll : List String → String
  | [] => ""
  | s :: rest => s ++ joinAll rest

/-! ### Concrete values used by witnesses -/

/-- A concrete issue used in closed witness statements. -/
def issueA : Issue :=
  { Title := "a", Date := 0, URL := "u1",
    Repo := { Owner := "o", Name := "r" }, Languages := ["Go"] }

/-- A second concrete issue with a distinct URL. -/
def issueB : Issue :=
  { Title := "b", Date := 1, URL := "u2",
    Repo := { Owner := "o", Name := "r" }, Languages := [] }

/-- Concrete world for the C7 witness: the context is observed cancelled
at every send attempt. -/
def wCancel : SearchWorld :=
  { searchOutcome := ReqOutcome.resp 200 (Except.ok []),
    langWorld := fun _ => ReqOutcome.resp 200 (Except.ok [("Go", 1)]),
    cancelledAtSend := fun _ => true }

/-- Concrete search item for the C7 witness. -/
def itemCancel : SearchItem :=
  { Title := "t", CreatedAt := 0, URL := "u1", RepoURL := "o/r" }

/-- World for C1: the search endpoint answers with status 403. -/
def wStatus403 : SearchWorld :=
  { searchOutcome := ReqOutcome.resp 403 (Except.ok []),
    langWorld := fun _ => ReqOutcome.resp 200 (Except.ok []),
    cancelledAtSend := fun _ => false }

/-- First search item for C3: repo URL shared with the second item. -/
def itemShared1 : SearchItem :=
  { Title := "t1", CreatedAt := 0, URL := "u1", RepoURL := "api/repos/o/r" }

/-- Second search item for C3: repo URL shared with the first item. -/
def itemShared2 : SearchItem :=
  { Title := "t2", CreatedAt := 0, URL := "u2", RepoURL := "api/repos/o/r" }

/-- World for C3: one search returning two items that reference the same
repository, whose languages endpoint answers successfully. -/
def wShared : SearchWorld :=
  { searchOutcome := ReqOutcome.resp 200 (Except.ok [itemShared1, itemShared2]),
    langWorld := fun _ => ReqOutcome.resp 200 (Except.ok [("Go", 100)]),
    cancelledAtSend := fun _ => false }

/-- The concrete weight mapping of the top-3 ranking example. -/
def weightsC8 : List (String × Int) :=
  [("Go", 500), ("HTML", 300), ("CSS", 50), ("JS", 10)]

/-- All insertions of an element into a list, used to enumerate every map
iteration order of a concrete weight mapping. -/
def insertEverywhere (a : String × Int) :
    List (String × Int) → List (List (String × Int))
  | [] => [[a]]
  | x :: xs => (a :: x :: xs) :: (insertEverywhere a xs).map (fun l => x :: l)

/-- All permutations of a list, used to enumerate every map iteration
order of a concrete weight mapping. -/
def allOrders : List (String × Int) → List (List (String × Int))
  | [] => [[]]
  | x :: xs => ((allOrders xs).map (insertEverywhere x)).flatten

/-! ### Lemmas about dedupe -/

theorem foldl_dedupeStep (l : List Issue) :
    ∀ (acc : List Issue) (c : String → Nat) (S : List String),
      (∀ u, c u = 0 ↔ u ∉ S) →
      (l.foldl dedupeStep (acc, c)).1 = acc ++ dedupeFrom S l := by
  induction l with
  | nil => intro acc c S _; simp [dedupeFrom]
  | cons i rest ih =>
    intro acc c S h
    by_cases hmem : i.URL ∈ S
    · have hc : ¬ c i.URL = 0 := fun h0 => (h i.URL).mp h0 hmem
      have hstep : dedupeStep (acc, c) i =
          (acc, fun u => if u = i.URL then c u + 1 else c u) := by
        simp [dedupeStep, hc]
      have hinv : ∀ u, (fun u => if u = i.URL then c u + 1 else c u) u = 0 ↔ u ∉ S := by
        intro u
        by_cases hu : u = i.URL
        · subst hu; simp [hmem]
        · simpa [hu] using h u
      calc (List.foldl dedupeStep (acc, c) (i :: rest)).1
          = (List.foldl dedupeStep (dedupeStep (acc, c) i) rest).1 := rfl
        _ = acc ++ dedupeFrom S rest := by rw [hstep]; exact ih acc _ S hinv
        _ = acc ++ dedupeFrom S (i :: rest) := by simp [dedupeFrom, hmem]
    · have hc : c i.URL = 0 := (h i.URL).mpr hmem
      have hstep : dedupeStep (acc, c) i =
          (acc ++ [i], fun u => if u = i.URL then c u + 1 else c u) := by
        simp [dedupeStep, hc]
      have hinv : ∀ u, (fun u => if u = i.URL then c u + 1 else c u) u = 0 ↔
          u ∉ i.URL :: S := by
        intro u
        by_cases hu : u = i.URL
        · subst hu; simp
        · simp only [if_neg hu, List.mem_cons]
          rw [h u]
          simp [hu]
      calc (List.foldl dedupeStep (acc, c) (i :: rest)).1
          = (List.foldl dedupeStep (dedupeStep (acc, c) i) rest).1 := rfl
        _ = (acc ++ [i]) ++ dedupeFrom (i.URL :: S) rest := by
            rw [hstep]; exact ih (acc ++ [i]) _ (i.URL :: S) hinv
        _ = acc ++ dedupeFrom S (i :: rest) := by simp [dedupeFrom, hmem]

theorem dedupe_eq_dedupeFrom (inp : GoSlice Issue) :
    dedupe inp = some (dedupeFrom [] inp.elems) := by
  unfold dedupe
  rw [foldl_dedupeStep inp.elems [] (fun _ => 0) []]
  · simp
  · intro u; simp

theorem dedupeFrom_sublist (l : List Issue) :
    ∀ S, (dedupeFrom S l).Sublist l := by
  induction l with
  | nil => intro S; simp [dedupeFrom]
  | cons i rest ih =>
    intro S
    by_cases hmem : i.URL ∈ S
    · simpa [dedupeFrom, hmem] using (ih S).cons i
    · simpa [dedupeFrom, hmem] using (ih (i.URL :: S)).cons₂ i

theorem dedupeFrom_url_not_mem (l : List Issue) :
    ∀ S, ∀ a ∈ dedupeFrom S l, a.URL ∉ S := by
  induction l with
  | nil => intro S a ha; simp [dedupeFrom] at ha
  | cons i rest ih =>
    intro S a ha
    by_cases hmem : i.URL ∈ S
    · rw [dedupeFrom, if_pos hmem] at ha
      exact ih S a ha
    · rw [dedupeFrom, if_neg hmem] at ha
      rcases List.mem_cons.mp ha with ha | ha
      · exact ha ▸ hmem
      · exact fun hS => ih (i.URL :: S) a ha (List.mem_cons_of_mem _ hS)

theorem dedupeFrom_pairwise (l : List Issue) :
    ∀ S, (dedupeFrom S l).Pairwise (fun a b => a.URL ≠ b.URL) := by
  induction l with
  | nil => intro S; simp [dedupeFrom]
  | cons i rest ih =>
    intro S
    by_cases hmem : i.URL ∈ S
    · rw [dedupeFrom, if_pos hmem]; exact ih S
    · rw [dedupeFrom, if_neg hmem]
      refine List.Pairwise.cons ?_ (ih (i.URL :: S))
      intro b hb
      have := dedupeFrom_url_not_mem rest (i.URL :: S) b hb
      intro hurl
      exact this (hurl ▸ List.mem_cons_self _ _)

theorem dedupeFrom_first_occ (l : List Issue) :
    ∀ S, ∀ a ∈ dedupeFrom S l,
      ∃ l₁ l₂, l = l₁ ++ a :: l₂ ∧ ∀ b ∈ l₁, b.URL ≠ a.URL := by
  induction l with
  | nil => intro S a ha; simp [dedupeFrom] at ha
  | cons i rest ih =>
    intro S a ha
    by_cases hmem : i.URL ∈ S
    · rw [dedupeFrom, if_pos hmem] at ha
      obtain ⟨l₁, l₂, hdec, hne⟩ := ih S a ha
      have haS : a.URL ∉ S := dedupeFrom_url_not_mem rest S a ha
      refine ⟨i :: l₁, l₂, by simp [hdec], ?_⟩
      intro b hb
      rcases List.mem_cons.mp hb with hb | hb
      · subst hb; exact fun hurl => haS (hurl ▸ hmem)
      · exact hne b hb
    · rw [dedupeFrom, if_neg hmem] at ha
      rcases List.mem_cons.mp ha with ha | ha
      · exact ⟨[], rest, by simp [ha], by simp⟩
      · obtain ⟨l₁, l₂, hdec, hne⟩ := ih (i.URL :: S) a ha
        have haS : a.URL ∉ i.URL :: S :=
          dedupeFrom_url_not_mem rest (i.URL :: S) a ha
        refine ⟨i :: l₁, l₂, by simp [hdec], ?_⟩
        intro b hb
        rcases List.mem_cons.mp hb with hb | hb
        · subst hb
          exact fun hurl => haS (hurl ▸ List.mem_cons_self _ _)
        · exact hne b hb

theorem dedupeFrom_of_nodup (l : List Issue) :
    ∀ S, (l.map Issue.URL).Nodup → (∀ u ∈ l.map Issue.URL, u ∉ S) →
      dedupeFrom S l = l := by
  induction l with
  | nil => intro S _ _; simp [dedupeFrom]
  | cons i rest ih =>
    intro S hnd hS
    have hmem : i.URL ∉ S := hS i.URL (by simp)
    rw [dedupeFrom, if_neg hmem]
    have hnd2 : (rest.map Issue.URL).Nodup := (List.nodup_cons.mp hnd).2
    have hni : i.URL ∉ rest.map Issue.URL := (List.nodup_cons.mp hnd).1
    have hS2 : ∀ u ∈ rest.map Issue.URL, u ∉ i.URL :: S := by
      intro u hu
      simp only [List.mem_cons]
      rintro (h1 | h2)
      · exact hni (h1 ▸ hu)
      · exact hS u (List.mem_cons_of_mem _ hu) h2
    rw [ih (i.URL :: S) hnd2 hS2]

/-! ### Claim C5: dedupe keeps the first occurrence per URL -/

/-- C5: dedupe returns a list in which no two records share a URL, each
surviving record is the first occurrence of its URL in the original
order, the original order is preserved (the output is a sublist of the
input), an input whose URLs are already unique comes back unchanged, and
deduplicating twice equals deduplicating once. -/
theorem dedupe_first_occurrence_spec (inp : GoSlice Issue) :
    (dedupe inp).elems.Pairwise (fun a b => a.URL ≠ b.URL) ∧
    (dedupe inp).elems.Sublist inp.elems ∧
    (∀ a ∈ (dedupe inp).elems,
      ∃ l₁ l₂, inp.elems = l₁ ++ a :: l₂ ∧ ∀ b ∈ l₁, b.URL ≠ a.URL) ∧
    ((inp.elems.map Issue.URL).Nodup → dedupe inp = some inp.elems) ∧
    dedupe (dedupe inp) = dedupe inp := by
  have he : (dedupe inp).elems = dedupeFrom [] inp.elems := by
    rw [dedupe_eq_dedupeFrom]; rfl
  have hnd : ((dedupeFrom [] inp.elems).map Issue.URL).Nodup :=
    List.pairwise_map.mpr (dedupeFrom_pairwise inp.elems [])
  refine ⟨?_, ?_, ?_, ?_, ?_⟩
  · rw [he]; exact dedupeFrom_pairwise _ []
  · rw [he]; exact dedupeFrom_sublist _ []
  · rw [he]; exact dedupeFrom_first_occ _ []
  · intro hu
    rw [dedupe_eq_dedupeFrom, dedupeFrom_of_nodup _ [] hu (by simp)]
  · rw [dedupe_eq_dedupeFrom inp,
      dedupe_eq_dedupeFrom (some (dedupeFrom [] inp.elems))]
    congr 1
    exact dedupeFrom_of_nodup _ [] hnd (by simp)

/-- Witness for C5 at a concrete input with unique URLs. -/
theorem dedupe_first_occurrence_spec_app :
    dedupe (some [issueA, issueB]) = some [issueA, issueB] :=
  (dedupe_first_occurrence_spec (some [issueA, issueB])).2.2.2.1 (by decide)

/-! ### Claim C10: a successful run returns a non-nil slice -/

/-- C10: dedupe maps every input, the nil slice included, to a non-nil
slice; a successful run that collected nothing returns the empty list,
not the nil slice; and every result of the fan-in loop that carries the
nil error carries a non-nil record slice. -/
theorem fetchIssues_success_non_nil :
    (∀ inp : GoSlice Issue, (dedupe inp).isSome = true) ∧
    dedupe none = some [] ∧
    fetchIssuesResult [FanEvent.closeEvent] =
      some { records := some [], err := none, cancelled := true } ∧
    (∀ (trace : List FanEvent) (acc : GoSlice Issue) (res : FanResult),
      fetchIssuesLoop acc trace = some res → res.err = none →
      res.records.isSome = true) := by
  refine ⟨fun _ => rfl, rfl, rfl, ?_⟩
  intro trace
  induction trace with
  | nil => intro acc res h _; exact absurd h (by simp [fetchIssuesLoop])
  | cons ev rest ih =>
    intro acc res h hres
    cases ev with
    | errEvent e =>
      simp only [fetchIssuesLoop, Option.some.injEq] at h
      rw [← h] at hres
      simp at hres
    | closeEvent =>
      simp only [fetchIssuesLoop, Option.some.injEq] at h
      rw [← h]
      rfl
    | recEvent i => exact ih (acc.push i) res h hres

/-- Witness for C10 at the trace of an immediately closed channel. -/
theorem fetchIssues_success_non_nil_app :
    ({ records := some [], err := none, cancelled := true } : FanResult).records.isSome
      = true :=
  fetchIssues_success_non_nil.2.2.2 [FanEvent.closeEvent] none _ rfl rfl

/-! ### Claim C4: first failure short-circuits the fan-in loop -/

/-- C4: whenever the fan-in loop receives an error, no matter how many
records it received before, it cancels the child context and returns the
nil record slice together with that error. -/
theorem fetchIssues_first_error_short_circuit (pre : List FanEvent) (e : String)
    (rest : List FanEvent) (acc : GoSlice Issue)
    (hpre : ∀ ev ∈ pre, ∃ i, ev = FanEvent.recEvent i) :
    fetchIssuesLoop acc (pre ++ FanEvent.errEvent e :: rest) =
      some { records := none, err := some e, cancelled := true } := by
  induction pre generalizing acc with
  | nil => rfl
  | cons ev pre ih =>
    obtain ⟨i, hi⟩ := hpre ev (List.mem_cons_self _ _)
    subst hi
    exact ih (acc.push i) (fun x hx => hpre x (List.mem_cons_of_mem _ hx))

/-- Witness for C4 with one record delivered before the error. -/
theorem fetchIssues_first_error_short_circuit_app :
    fetchIssuesLoop none
        ([FanEvent.recEvent issueA] ++ FanEvent.errEvent "boom" :: []) =
      some { records := none, err := some "boom", cancelled := true } :=
  fetchIssues_first_error_short_circuit [FanEvent.recEvent issueA] "boom" [] none
    (fun ev hev => ⟨issueA, List.mem_singleton.mp hev⟩)

/-! ### Claim C6: the language cache -/

/-- C6: when the cached entry for the repo URL is a non-empty list,
repoLanguages returns exactly that list with the nil error, leaves the
fetcher unchanged and executes no outbound request; when the cached entry
is empty it is treated as a miss and, whenever the request can be built
at all, the fetch on the languages endpoint is executed. -/
theorem repoLanguages_cache_hit_and_miss (lf : languageFetcher)
    (world : String → ReqOutcome (List (String × Int))) (repoURL token : String) :
    (cacheGet lf.fetchedRepos repoURL ≠ [] →
      repoLanguages lf world repoURL token =
        { langs := cacheGet lf.fetchedRepos repoURL, err := none,
          lf := lf, reqs := [] }) ∧
    (cacheGet lf.fetchedRepos repoURL = [] →
      (∀ m, world (repoURL ++ "/languages") ≠ ReqOutcome.buildErr m) →
      (repoLanguages lf world repoURL token).reqs = [repoURL ++ "/languages"]) := by
  constructor
  · intro h
    have hlen : 0 < (cacheGet lf.fetchedRepos repoURL).length :=
      List.length_pos.mpr h
    simp [repoLanguages, hlen]
  · intro h hb
    cases hw : world (repoURL ++ "/languages") with
    | buildErr m => exact absurd hw (hb m)
    | transportErr m => simp [repoLanguages, h, hw]
    | resp status decoded =>
      by_cases hs : status = 200
      · cases decoded with
        | error m => simp [repoLanguages, h, hw, hs]
        | ok data => simp [repoLanguages, h, hw, hs]
      · simp [repoLanguages, h, hw, hs]

/-- Witness for C6: a cache hit at a concrete fetcher, and a miss on the
empty cache that issues the outbound request. -/
theorem repoLanguages_cache_hit_and_miss_app :
    repoLanguages { fetchedRepos := [("u", ["Go"])] }
        (fun _ => ReqOutcome.transportErr "t") "u" "" =
      { langs := ["Go"], err := none,
        lf := { fetchedRepos := [("u", ["Go"])] }, reqs := [] } ∧
    (repoLanguages newLanguageFetcher
        (fun _ => ReqOutcome.transportErr "t") "u" "").reqs = ["u/languages"] :=
  ⟨(repoLanguages_cache_hit_and_miss { fetchedRepos := [("u", ["Go"])] }
      (fun _ => ReqOutcome.transportErr "t") "u" "").1 (by decide),
   (repoLanguages_cache_hit_and_miss newLanguageFetcher
      (fun _ => ReqOutcome.transportErr "t") "u" "").2 (by decide)
      (fun m h => by simp at h)⟩

/-! ### Claim C7: a cancelled worker stops silently -/

/-- C7: a worker that observes cancellation of the shared context at the
select before delivering a record stops at that point: it returns the nil
error and sends nothing further, whatever the remaining items would have
produced. -/
theorem cancelled_worker_returns_no_error (w : SearchWorld) (token : String)
    (k : Nat) (item : SearchItem) (rest : List SearchItem)
    (hfetch :
      (repoLanguages newLanguageFetcher w.langWorld item.RepoURL token).err = none)
    (hrepo : (repoFromURL item.RepoURL).2 = none)
    (hc : w.cancelledAtSend k = true) :
    (searchLoop w token k (item :: rest)).err = none ∧
    (searchLoop w token k (item :: rest)).sent = [] := by
  constructor <;> simp [searchLoop, hfetch, hrepo, hc]

/-- Witness for C7 at a concrete world and item. -/
theorem cancelled_worker_returns_no_error_app :
    (searchLoop wCancel "" 0 [itemCancel]).err = none ∧
    (searchLoop wCancel "" 0 [itemCancel]).sent = [] :=
  cancelled_worker_returns_no_error wCancel "" 0 itemCancel []
    (by decide) (by decide) (by decide)

/-! ### Claim C1: the non-200 status paths -/

/-- C1 is violated by the code: on a non-200 response both issueSearch and
repoLanguages run errors.Wrapf on the nil error left by the successful Do
call, and errors.Wrapf of the nil error is the nil error, so both return
the nil error - the callers see success (with an empty language list)
instead of a Status Error. This contradicts the doc comment of
issueSearch (issues.go lines 116-119), which promises an error whenever
GitHub responds with anything but a 200. -/
theorem statusError_is_nil_on_non200 :
    (issueSearch wStatus403 "").err = none ∧
    (repoLanguages newLanguageFetcher
        (fun _ => ReqOutcome.resp 404 (Except.ok [("Go", 1)])) "u" "").err = none ∧
    (repoLanguages newLanguageFetcher
        (fun _ => ReqOutcome.resp 404 (Except.ok [("Go", 1)])) "u" "").langs = [] :=
  ⟨rfl, rfl, rfl⟩

/-! ### Claim C3: the cache does not survive from one item to the next -/

/-- C3 is violated by the code: a fresh languageFetcher is constructed
inside the item loop (issues.go line 174), so its cache lives for a single
item and the second item with the same repository URL triggers a second
outbound fetch instead of a cache hit. -/
theorem language_cache_not_reused_across_items :
    (issueSearch wShared "").reqs =
      ["api/repos/o/r/languages", "api/repos/o/r/languages"] ∧
    (issueSearch wShared "").err = none :=
  ⟨rfl, rfl⟩

/-! ### Claim C8: the concrete top-3 example -/

/-- C8: on the weight mapping Go 500, HTML 300, CSS 50, JS 10 the fetcher
returns exactly Go, HTML, CSS - under every one of the 24 possible map
iteration orders, and through repoLanguages itself on a fresh fetcher. -/
theorem repoLanguages_top3_concrete :
    (repoLanguages newLanguageFetcher
        (fun _ => ReqOutcome.resp 200 (Except.ok weightsC8)) "u" "").langs =
      ["Go", "HTML", "CSS"] ∧
    ((allOrders weightsC8).all
      (fun l => rankLanguages l == ["Go", "HTML", "CSS"])) = true := by
  constructor
  · rfl
  · decide

/-! ### Claim C9: the shape of the search request -/

theorem foldl_append_term (s : String) (l : List String) :
    ∀ init : String, l.foldl (fun q k => q ++ s ++ k) init =
      init ++ joinAll (l.map (fun k => s ++ k)) := by
  induction l with
  | nil => intro init; simp [joinAll]
  | cons x xs ih =>
    intro init
    simp only [List.foldl, List.map, joinAll]
    rw [ih]
    simp [String.append_assoc]

/-- C9: the search request is a GET on the search endpoint whose q
parameter is the open-state filter, the issue-type filter, the label in
double quotes, one org: term per tracked organization and one repo: term
per tracked project; it carries sort=updated, order=asc, per_page=100,
and the Authorization token header exactly when the token is non-empty. -/
theorem search_request_shape (orgs projects : List String) (label token : String) :
    buildSearchRequest orgs projects label token =
      { method := "GET"
        baseURL := "https://api.github.com/search/issues"
        query := [("q", "is:open type:issue label:\"" ++ label ++ "\"" ++
                    joinAll (orgs.map (fun k => " org:" ++ k)) ++
                    joinAll (projects.map (fun k => " repo:" ++ k))),
                  ("sort", "updated"), ("order", "asc"), ("per_page", "100")]
        headers := if token = "" then []
                   else [("Authorization", "token " ++ token)] } := by
  unfold buildSearchRequest buildSearchQuery
  rw [foldl_append_term, foldl_append_term]
  by_cases ht : token = "" <;> simp [ht, String.append_assoc]

/-! ### Claim C2: the ranking of language weights -/

/-- C2 counterexample: on the tied weight mapping A 1, B 1, the ranking
step returns the name B twice and loses the name A entirely, so the
output both duplicates a name and loses one. -/
theorem rankLanguages_tie_duplicates_and_loses :
    rankLanguages [("A", 1), ("B", 1)] = ["B", "B"] ∧
    ¬ (rankLanguages [("A", 1), ("B", 1)]).Nodup ∧
    "A" ∉ rankLanguages [("A", 1), ("B", 1)] ∧
    (repoLanguages newLanguageFetcher
        (fun _ => ReqOutcome.resp 200 (Except.ok [("A", 1), ("B", 1)]))
        "u" "").langs = ["B", "B"] := by
  refine ⟨by decide, by decide, by decide, rfl⟩

theorem insertPairDesc_perm (x : String × Int) (l : List (String × Int)) :
    (insertPairDesc x l).Perm (x :: l) := by
  induction l with
  | nil => exact List.Perm.refl _
  | cons y ys ih =>
    by_cases h : x.2 ≥ y.2
    · rw [insertPairDesc, if_pos h]
    · rw [insertPairDesc, if_neg h]
      exact (ih.cons y).trans (List.Perm.swap x y ys)

theorem sortPairsDesc_perm (l : List (String × Int)) :
    (sortPairsDesc l).Perm l := by
  induction l with
  | nil => exact List.Perm.refl _
  | cons x xs ih =>
    exact (insertPairDesc_perm x (sortPairsDesc xs)).trans (ih.cons x)

theorem map_snd_insertPairDesc (x : String × Int) (l : List (String × Int)) :
    (insertPairDesc x l).map Prod.snd = insertDesc x.2 (l.map Prod.snd) := by
  induction l with
  | nil => rfl
  | cons y ys ih =>
    by_cases h : x.2 ≥ y.2
    · simp [insertPairDesc, insertDesc, h]
    · simp [insertPairDesc, insertDesc, h, ih]

theorem map_snd_sortPairsDesc (l : List (String × Int)) :
    (sortPairsDesc l).map Prod.snd = sortDesc (l.map Prod.snd) := by
  induction l with
  | nil => rfl
  | cons x xs ih => simp [sortPairsDesc, sortDesc, map_snd_insertPairDesc, ih]

theorem insertPairDesc_sorted (x : String × Int) (l : List (String × Int))
    (h : l.Pairwise (fun a b => b.2 ≤ a.2)) :
    (insertPairDesc x l).Pairwise (fun a b => b.2 ≤ a.2) := by
  induction l with
  | nil => simp [insertPairDesc]
  | cons y ys ih =>
    rcases List.pairwise_cons.mp h with ⟨hy, hys⟩
    by_cases hxy : x.2 ≥ y.2
    · rw [insertPairDesc, if_pos hxy]
      refine List.Pairwise.cons ?_ h
      intro b hb
      rcases List.mem_cons.mp hb with hb | hb
      · exact hb ▸ hxy
      · exact le_trans (hy b hb) hxy
    · rw [insertPairDesc, if_neg hxy]
      refine List.Pairwise.cons ?_ (ih hys)
      intro b hb
      rcases List.mem_cons.mp ((insertPairDesc_perm x ys).mem_iff.mp hb) with hb | hb
      · exact hb ▸ le_of_lt (lt_of_not_ge hxy)
      · exact hy b hb

theorem sortPairsDesc_sorted (l : List (String × Int)) :
    (sortPairsDesc l).Pairwise (fun a b => b.2 ≤ a.2) := by
  induction l with
  | nil => simp [sortPairsDesc]
  | cons x xs ih => exact insertPairDesc_sorted x (sortPairsDesc xs) ih

theorem sortMapGet_eq (data : List (String × Int)) (p : String × Int)
    (hw : (data.map Prod.snd).Nodup) (hp : p ∈ data) :
    sortMapGet data p.2 = p.1 := by
  have hrev : p ∈ data.reverse := List.mem_reverse.mpr hp
  have hsome : (data.reverse.find? (fun q => q.2 == p.2)).isSome := by
    rw [List.find?_isSome]
    exact ⟨p, hrev, by simp⟩
  obtain ⟨x, hx⟩ := Option.isSome_iff_exists.mp hsome
  have hmem : x ∈ data.reverse := List.mem_of_find?_eq_some hx
  have hpred := List.find?_some hx
  have hx2 : x.2 = p.2 := by simpa using hpred
  have hxp : x = p :=
    List.inj_on_of_nodup_map hw (List.mem_reverse.mp hmem) hp hx2
  simp [sortMapGet, hx, hxp]

theorem rankLanguages_eq_sorted (data : List (String × Int))
    (hw : (data.map Prod.snd).Nodup) :
    rankLanguages data = ((sortPairsDesc data).take 3).map Prod.fst := by
  show ((sortDesc (data.map Prod.snd)).take 3).map (fun k => sortMapGet data k) =
    ((sortPairsDesc data).take 3).map Prod.fst
  rw [← map_snd_sortPairsDesc, ← List.map_take, List.map_map]
  refine List.map_congr_left ?_
  intro p hp
  have hpd : p ∈ data :=
    (sortPairsDesc_perm data).mem_iff.mp (List.mem_of_mem_take hp)
  exact sortMapGet_eq data p hw hpd

theorem sortPairsDesc_strict (m : List (String × Int))
    (hm : (m.map Prod.snd).Nodup) :
    (sortPairsDesc m).Pairwise (fun a b => b.2 < a.2) := by
  have hs := sortPairsDesc_sorted m
  have hnd : ((sortPairsDesc m).map Prod.snd).Nodup :=
    ((sortPairsDesc_perm m).map Prod.snd).nodup_iff.mpr hm
  have hne : (sortPairsDesc m).Pairwise (fun a b => a.2 ≠ b.2) :=
    List.pairwise_map.mp hnd
  exact (hs.and hne).imp (fun h => lt_of_le_of_ne h.1 (Ne.symm h.2))

theorem sortPairsDesc_perm_eq (data data2 : List (String × Int))
    (hw : (data.map Prod.snd).Nodup) (hperm : data2.Perm data) :
    sortPairsDesc data2 = sortPairsDesc data := by
  have hw2 : (data2.map Prod.snd).Nodup := (hperm.map Prod.snd).nodup_iff.mpr hw
  have hp : (sortPairsDesc data2).Perm (sortPairsDesc data) :=
    ((sortPairsDesc_perm data2).trans hperm).trans (sortPairsDesc_perm data).symm
  haveI : IsAntisymm (String × Int) (fun a b => b.2 < a.2) :=
    ⟨fun a b h1 h2 => absurd (lt_trans h1 h2) (lt_irrefl _)⟩
  exact List.eq_of_perm_of_sorted hp
    (sortPairsDesc_strict data2 hw2) (sortPairsDesc_strict data hw)

/-- C2 amended: for a weight mapping whose weights are pairwise distinct,
the ranking step returns exactly the names of the first min(3, n) pairs
sorted by descending weight (sortPairsDesc is a descending-sorted
permutation of the mapping); with distinct names the result has no
duplicates; the result does not depend on the map iteration order; and
repoLanguages on a fresh fetcher returns exactly this ranking. -/
theorem rankLanguages_top3_of_distinct_weights (data : List (String × Int))
    (hw : (data.map Prod.snd).Nodup) :
    rankLanguages data = ((sortPairsDesc data).take 3).map Prod.fst ∧
    (sortPairsDesc data).Perm data ∧
    (sortPairsDesc data).Pairwise (fun a b => b.2 ≤ a.2) ∧
    (rankLanguages data).length = min 3 data.length ∧
    ((data.map Prod.fst).Nodup → (rankLanguages data).Nodup) ∧
    (∀ data2 : List (String × Int), data2.Perm data →
      rankLanguages data2 = rankLanguages data) ∧
    (∀ token : String,
      (repoLanguages newLanguageFetcher
        (fun _ => ReqOutcome.resp 200 (Except.ok data)) "u" token).langs =
          rankLanguages data) := by
  refine ⟨rankLanguages_eq_sorted data hw, sortPairsDesc_perm data,
    sortPairsDesc_sorted data, ?_, ?_, ?_, fun _ => rfl⟩
  · rw [rankLanguages_eq_sorted data hw]
    simp [(sortPairsDesc_perm data).length_eq]
  · intro hn
    rw [rankLanguages_eq_sorted data hw]
    have h1 : ((sortPairsDesc data).map Prod.fst).Nodup :=
      ((sortPairsDesc_perm data).map Prod.fst).nodup_iff.mpr hn
    exact h1.sublist ((List.take_sublist 3 _).map Prod.fst)
  · intro data2 hperm
    have hw2 : (data2.map Prod.snd).Nodup := (hperm.map Prod.snd).nodup_iff.mpr hw
    rw [rankLanguages_eq_sorted data hw, rankLanguages_eq_sorted data2 hw2,
      sortPairsDesc_perm_eq data data2 hw hperm]

/-- Witness for the amended C2 at a concrete mapping with distinct
weights. -/
theorem rankLanguages_top3_of_distinct_weights_app :
    rankLanguages [("Rust", 7), ("C", 3)] =
      ((sortPairsDesc [("Rust", 7), ("C", 3)]).take 3).map Prod.fst :=
  (rankLanguages_top3_of_distinct_weights [("Rust", 7), ("C", 3)] (by decide)).1
